import Mathlib

set_option maxHeartbeats 1000000

/-! Shallow embedding of the external scanner in src/src/scanner.cc of
tree-sitter-talon.

Characters are modelled as natural-number code points; the lexer's
lookahead is the head of the remaining input list, and an empty list (or
an explicit 0 element) gives lookahead 0, exactly as the C scanner sees
end of input.  Machine integers are modelled as Nat with explicit
reductions: uint32 arithmetic as % 4294967296, the uint16_t field
previous_indent_length as % 65536 at each store, and bytes as % 256.
The char-to-uint16_t conversion in deserialize is modelled as the raw
byte value (the unsigned-char reading; on signed-char platforms bytes
of 128 and above would additionally sign-extend, which only narrows the
range on which the round-trip property below can hold). -/

inductive TokenType where
  | NEWLINE
  | INDENT
  | DEDENT
  | STRING_START
  | STRING_CONTENT
  | STRING_END
  | REGEX_START
  | REGEX_CONTENT
  | REGEX_END
  | COMMENT
  | CLOSE_PAREN
  | CLOSE_BRACKET
  | CLOSE_BRACE
deriving DecidableEq

/-- One open string literal: the bit-flag byte of struct Delimiter. -/
structure Delimiter where
  flags : Nat
deriving DecidableEq

/-- Delimiter::end_character from scanner.cc: 39 is a single quote, 34 a
double quote, 96 a backtick. -/
def Delimiter.end_character (d : Delimiter) : Nat :=
  if d.flags &&& 1 ≠ 0 then 39
  else if d.flags &&& 2 ≠ 0 then 34
  else if d.flags &&& 4 ≠ 0 then 96
  else 0

/-- Delimiter::set_end_character from scanner.cc (the assert(false)
default branch is modelled as leaving the flags unchanged; scan only
calls it with one of the three quote characters). -/
def Delimiter.set_end_character (d : Delimiter) (c : Nat) : Delimiter :=
  if c = 39 then ⟨d.flags ||| 1⟩
  else if c = 34 then ⟨d.flags ||| 2⟩
  else if c = 96 then ⟨d.flags ||| 4⟩
  else d

/-- The scanner state: previous_indent_length (uint16_t) and the
delimiter stack (vector order: index 0 is the bottom, the last element
is the top / back). -/
structure Scanner where
  previous_indent_length : Nat
  delimiter_stack : List Delimiter
deriving DecidableEq

/-- Scanner::serialize: one count byte (the stack size capped at 255),
then the first count delimiter bytes of the vector, then the low byte of
previous_indent_length.  Returns the byte string; its length is the
returned size. -/
def serialize (s : Scanner) : List Nat :=
  let delimiter_count := min s.delimiter_stack.length 255
  delimiter_count ::
    ((s.delimiter_stack.take delimiter_count).map (fun d => d.flags % 256) ++
      [s.previous_indent_length % 256])

/-- Scanner::deserialize: always clears the stack; when length is 0 it
does nothing else (previous_indent_length keeps its old value).  When
length is positive it reads the count byte, then count delimiter bytes,
then one baseline byte, using only the encoded count (not the supplied
length) to decide how much to read; bytes beyond the end of the modelled
buffer read as 0. -/
def deserialize (s : Scanner) (buffer : List Nat) (length : Nat) : Scanner :=
  if length = 0 then
    { previous_indent_length := s.previous_indent_length, delimiter_stack := [] }
  else
    let delimiter_count := (buffer.headD 0) % 256
    { previous_indent_length := (buffer.getD (1 + delimiter_count) 0) % 256,
      delimiter_stack :=
        (List.range delimiter_count).map (fun j => ⟨(buffer.getD (1 + j) 0) % 256⟩) }

/-- The buffer indices Scanner::deserialize reads, as a function of the
buffer contents and the supplied length: nothing when length is 0,
otherwise index 0 (the count byte), indices 1..count (the memcpy of
count delimiter bytes), and index count+1 (the baseline byte). -/
def deserializeReadIndices (buffer : List Nat) (length : Nat) : List Nat :=
  if length = 0 then []
  else
    let delimiter_count := (buffer.headD 0) % 256
    0 :: ((List.range delimiter_count).map (fun j => 1 + j) ++ [1 + delimiter_count])

/-- Conversion of a uint32 value to int32, for the cast
(int32_t)indent_length at line 251 of scanner.cc. -/
def toInt32 (n : Nat) : Int :=
  if n < 2147483648 then (n : Int) else (n : Int) - 4294967296

/-- Result of the string-content or regex-content while loop: either an
early return (carrying the returned bool, the result_symbol if one was
stored, the mark_end position if mark_end was called, and whether a
delimiter was popped), or falling out of the loop on lookahead 0 with
the remaining input and the number of characters advanced. -/
inductive ContentRes where
  | ret (result : Bool) (symbol : Option TokenType) (marked : Option Nat) (popped : Bool)
  | fallthrough (remaining : List Nat) (pos : Nat)
deriving DecidableEq

/-- The string-content while loop (scanner.cc lines 147-182), with the
top delimiter's end character as first argument.  pos counts characters
advanced since the start of the scan call. -/
def stringLoop (end_character : Nat) : List Nat → Bool → Nat → ContentRes
  | [], _, pos => .fallthrough [] pos
  | c :: rest, has_content, pos =>
    if c = 0 then .fallthrough (c :: rest) pos
    else if c = 123 ∨ c = 125 then .ret has_content (some .STRING_CONTENT) (some pos) false
    else if c = 92 then .ret has_content (some .STRING_CONTENT) (some pos) false
    else if c = end_character then
      if has_content = true then .ret true (some .STRING_CONTENT) (some pos) false
      else .ret true (some .STRING_END) (some (pos + 1)) true
    else if c = 10 ∧ has_content = true then .ret false none none false
    else stringLoop end_character rest true (pos + 1)

/-- The regex-content while loop (scanner.cc lines 188-216). -/
def regexLoop : List Nat → Bool → Nat → ContentRes
  | [], _, pos => .fallthrough [] pos
  | c :: rest, has_content, pos =>
    if c = 0 then .fallthrough (c :: rest) pos
    else if c = 92 then .ret has_content (some .REGEX_CONTENT) (some pos) false
    else if c = 47 then
      if has_content = true then .ret true (some .REGEX_CONTENT) (some pos) false
      else .ret true (some .REGEX_END) (some (pos + 1)) false
    else if c = 10 ∧ has_content = true then .ret false none none false
    else regexLoop rest true (pos + 1)

/-- Result of the layout measuring loop (Phase A, scanner.cc lines
224-291): fail is the invalid-line-continuation early return false;
done carries found_end_of_line, indent_length,
first_comment_indent_length (-1 when no comment was seen) and the
remaining input at the break. -/
inductive LayoutARes where
  | fail
  | done (found_end_of_line : Bool) (indent_length : Nat)
      (first_comment_indent_length : Int) (remaining : List Nat)
deriving DecidableEq

/-- Phase A layout loop.  The inner comment-skipping while loop of the
source (lines 253-258) is fused in as the in_comment flag: while it is
true, characters are skipped until a newline, a zero lookahead, or the
end of input, after which indent_length is 0 and the outer loop
continues.  All whitespace arithmetic is uint32. -/
def layoutLoop (in_comment : Bool) (input : List Nat) (found_end_of_line : Bool)
    (indent_length : Nat) (first_comment_indent_length : Int) : LayoutARes :=
  match in_comment, input with
  | false, [] => .done true 0 first_comment_indent_length []
  | false, c :: rest =>
    if c = 10 then layoutLoop false rest true 0 first_comment_indent_length
    else if c = 32 then
      layoutLoop false rest found_end_of_line ((indent_length + 1) % 4294967296)
        first_comment_indent_length
    else if c = 13 then layoutLoop false rest found_end_of_line 0 first_comment_indent_length
    else if c = 9 then
      layoutLoop false rest found_end_of_line ((indent_length + 8) % 4294967296)
        first_comment_indent_length
    else if c = 35 then
      layoutLoop true rest found_end_of_line indent_length
        (if first_comment_indent_length = -1 then toInt32 indent_length
         else first_comment_indent_length)
    else if c = 92 then
      match rest with
      | 10 :: rest2 =>
        layoutLoop false rest2 found_end_of_line indent_length first_comment_indent_length
      | 13 :: 10 :: rest2 =>
        layoutLoop false rest2 found_end_of_line indent_length first_comment_indent_length
      | _ => .fail
    else if c = 12 then layoutLoop false rest found_end_of_line 0 first_comment_indent_length
    else if c = 0 then .done true 0 first_comment_indent_length (c :: rest)
    else .done found_end_of_line indent_length first_comment_indent_length (c :: rest)
  | true, [] => .done true 0 first_comment_indent_length []
  | true, c :: rest =>
    if c = 10 ∨ c = 0 then layoutLoop false rest found_end_of_line 0 first_comment_indent_length
    else layoutLoop true rest found_end_of_line indent_length first_comment_indent_length
termination_by structural input

/-- The outcome of one scan call: the returned bool, the result_symbol
if one was stored, the scanner state after the call, and the mark_end
position (characters from the start of the call) if mark_end was
called. -/
structure ScanResult where
  result : Bool
  symbol : Option TokenType
  scanner : Scanner
  marked : Option Nat
deriving DecidableEq

/-- Phase C (scanner.cc lines 326-368): string and regex openers, tried
only with the lookahead at the given remaining input.  pos is the
position after Phase A's trivia, pos0 the mark_end position set at line
219 before Phase A. -/
def scanPhaseC (s : Scanner) (valid : TokenType → Bool)
    (first_comment_indent_length : Int) (remaining : List Nat)
    (pos pos0 : Nat) : ScanResult :=
  let stringStartRes : Option ScanResult :=
    if first_comment_indent_length = -1 ∧ valid .STRING_START = true then
      match remaining with
      | c :: _ =>
        if c = 96 ∨ c = 39 ∨ c = 34 then
          some { result := true, symbol := some .STRING_START,
                 scanner := { s with delimiter_stack :=
                   s.delimiter_stack ++ [Delimiter.set_end_character ⟨0⟩ c] },
                 marked := some (pos + 1) }
        else none
      | [] => none
    else none
  match stringStartRes with
  | some r => r
  | none =>
    if first_comment_indent_length = -1 ∧ valid .REGEX_START = true ∧
        remaining.headD 0 = 47 then
      { result := true, symbol := some .REGEX_START, scanner := s,
        marked := some (pos + 1) }
    else
      { result := false, symbol := none, scanner := s, marked := some pos0 }

/-- The layout scanner (Phase A, then Phase B at lines 293-324, then
Phase C), starting at position pos0 where mark_end is called (line
219). -/
def layoutScan (s : Scanner) (valid : TokenType → Bool) (input : List Nat)
    (pos0 : Nat) : ScanResult :=
  let error_recovery_mode :=
    (valid .STRING_CONTENT || valid .REGEX_CONTENT) && valid .INDENT
  let within_brackets :=
    valid .CLOSE_BRACE || valid .CLOSE_PAREN || valid .CLOSE_BRACKET
  match layoutLoop false input false 0 (-1) with
  | .fail => { result := false, symbol := none, scanner := s, marked := some pos0 }
  | .done found indent fc remaining =>
    let pos := pos0 + (input.length - remaining.length)
    if found = true ∧ valid .INDENT = true ∧ s.previous_indent_length = 0 ∧ 0 < indent then
      { result := true, symbol := some .INDENT,
        scanner := { s with previous_indent_length := indent % 65536 },
        marked := some pos0 }
    else if found = true ∧
        (valid .DEDENT = true ∨ (valid .NEWLINE = false ∧ within_brackets = false)) ∧
        0 < s.previous_indent_length ∧ indent = 0 ∧
        fc < (s.previous_indent_length : Int) then
      { result := true, symbol := some .DEDENT,
        scanner := { s with previous_indent_length := indent % 65536 },
        marked := some pos0 }
    else if found = true ∧ valid .NEWLINE = true ∧ error_recovery_mode = false then
      { result := true, symbol := some .NEWLINE, scanner := s, marked := some pos0 }
    else scanPhaseC s valid fc remaining pos pos0

/-- The part of Scanner::scan after the string-content section: the
regex-content section (lines 185-217) and then the layout scanner.  pos
is the number of characters already advanced (nonzero only when the
string-content loop ran off the end of the input). -/
def scanAfterString (s : Scanner) (valid : TokenType → Bool) (input : List Nat)
    (pos : Nat) : ScanResult :=
  if valid .REGEX_CONTENT = true ∧
      ((valid .STRING_CONTENT || valid .REGEX_CONTENT) && valid .INDENT) = false then
    match regexLoop input false pos with
    | .ret res sym marked _ =>
      { result := res, symbol := sym, scanner := s, marked := marked }
    | .fallthrough remaining pos2 => layoutScan s valid remaining pos2
  else layoutScan s valid input pos

/-- Scanner::scan (scanner.cc lines 137-369). -/
def scan (s : Scanner) (valid : TokenType → Bool) (input : List Nat) : ScanResult :=
  if valid .STRING_CONTENT = true ∧ s.delimiter_stack ≠ [] ∧
      ((valid .STRING_CONTENT || valid .REGEX_CONTENT) && valid .INDENT) = false then
    match stringLoop (s.delimiter_stack.getLastD ⟨0⟩).end_character input false 0 with
    | .ret res sym marked popped =>
      { result := res, symbol := sym,
        scanner :=
          if popped = true then
            { s with delimiter_stack := s.delimiter_stack.dropLast }
          else s,
        marked := marked }
    | .fallthrough remaining pos => scanAfterString s valid remaining pos
  else scanAfterString s valid input 0

/-- States reachable from the zero state by scan calls alone. -/
inductive Reachable : Scanner → Prop where
  | init : Reachable ⟨0, []⟩
  | step (s : Scanner) (valid : TokenType → Bool) (input : List Nat) :
      Reachable s → Reachable (scan s valid input).scanner

/-- Requested-kind table with exactly one kind set. -/
def validOnly (t : TokenType) : TokenType → Bool := fun u => decide (u = t)

/-- Requested-kind table with no kind set. -/
def validNone : TokenType → Bool := fun _ => false

/-- Requested-kind table for scanning inside a string literal. -/
def validString : TokenType → Bool :=
  fun u => decide (u = .STRING_CONTENT ∨ u = .STRING_END)

/-- Characters the string-content loop consumes as plain content without
stopping: not end of input, not an interpolation brace, not a backslash,
not the closing delimiter, and not a newline. -/
def strPlain (end_character c : Nat) : Prop :=
  c ≠ 0 ∧ c ≠ 123 ∧ c ≠ 125 ∧ c ≠ 92 ∧ c ≠ end_character ∧ c ≠ 10

instance (e c : Nat) : Decidable (strPlain e c) := by
  unfold strPlain
  infer_instance

/-- Characters the regex-content loop consumes as plain content without
stopping. -/
def rPlain (c : Nat) : Prop :=
  c ≠ 0 ∧ c ≠ 92 ∧ c ≠ 47 ∧ c ≠ 10

instance (c : Nat) : Decidable (rPlain c) := by
  unfold rPlain
  infer_instance

/-- One step of the indentation measure stated in the spec: 1 column per
space, 8 per tab, reset to 0 by newline, carriage return and form feed
(uint32 arithmetic as in the code). -/
def wsStep (acc w : Nat) : Nat :=
  if w = 32 then (acc + 1) % 4294967296
  else if w = 9 then (acc + 8) % 4294967296
  else 0

/-- Indentation measured over a whitespace run, per the spec's counting
rule. -/
def wsMeasure (ws : List Nat) : Nat := ws.foldl wsStep 0

/-! Helper lemmas about the content loops. -/

theorem stringLoop_append (e : Nat) (pre l : List Nat) (pos : Nat)
    (h : ∀ c ∈ pre, strPlain e c) :
    stringLoop e (pre ++ l) true pos = stringLoop e l true (pos + pre.length) := by
  induction pre generalizing pos with
  | nil => simp
  | cons c pre ih =>
    obtain ⟨h0, h1, h2, h3, h4, h5⟩ := h c (by simp)
    have hrest : ∀ x ∈ pre, strPlain e x := fun x hx => h x (by simp [hx])
    have hstep : stringLoop e ((c :: pre) ++ l) true pos =
        stringLoop e (pre ++ l) true (pos + 1) := by
      simp [stringLoop, h0, h1, h2, h3, h4, h5]
    rw [hstep, ih (pos + 1) hrest]
    congr 1
    simp
    omega

theorem stringLoop_run (e : Nat) (pre l : List Nat)
    (h : ∀ c ∈ pre, strPlain e c) :
    stringLoop e (pre ++ l) false 0 =
      if pre = [] then stringLoop e l false 0
      else stringLoop e l true pre.length := by
  cases pre with
  | nil => simp
  | cons c pre =>
    obtain ⟨h0, h1, h2, h3, h4, h5⟩ := h c (by simp)
    have hrest : ∀ x ∈ pre, strPlain e x := fun x hx => h x (by simp [hx])
    have hstep : stringLoop e ((c :: pre) ++ l) false 0 =
        stringLoop e (pre ++ l) true 1 := by
      simp [stringLoop, h0, h1, h2, h3, h4]
    rw [hstep, stringLoop_append e pre l 1 hrest]
    simp
    congr 1
    omega

theorem regexLoop_append (pre l : List Nat) (pos : Nat)
    (h : ∀ c ∈ pre, rPlain c) :
    regexLoop (pre ++ l) true pos = regexLoop l true (pos + pre.length) := by
  induction pre generalizing pos with
  | nil => simp
  | cons c pre ih =>
    obtain ⟨h0, h1, h2, h3⟩ := h c (by simp)
    have hrest : ∀ x ∈ pre, rPlain x := fun x hx => h x (by simp [hx])
    have hstep : regexLoop ((c :: pre) ++ l) true pos =
        regexLoop (pre ++ l) true (pos + 1) := by
      simp [regexLoop, h0, h1, h2, h3]
    rw [hstep, ih (pos + 1) hrest]
    congr 1
    simp
    omega

theorem regexLoop_run (pre l : List Nat)
    (h : ∀ c ∈ pre, rPlain c) :
    regexLoop (pre ++ l) false 0 =
      if pre = [] then regexLoop l false 0
      else regexLoop l true pre.length := by
  cases pre with
  | nil => simp
  | cons c pre =>
    obtain ⟨h0, h1, h2, h3⟩ := h c (by simp)
    have hrest : ∀ x ∈ pre, rPlain x := fun x hx => h x (by simp [hx])
    have hstep : regexLoop ((c :: pre) ++ l) false 0 =
        regexLoop (pre ++ l) true 1 := by
      simp [regexLoop, h0, h1, h2]
    rw [hstep, regexLoop_append pre l 1 hrest]
    simp
    congr 1
    omega

/-- C4: with string-content requested, a non-empty delimiter stack, and
no simultaneous indentation request (the recovery situation), the
string-content scanner stops unconsuming at an interpolation brace or a
backslash and emits STRING_CONTENT exactly when at least one character
was consumed before it; at the top delimiter's closing character it
emits STRING_CONTENT (quote unconsumed, stack unchanged) when content
was accumulated, and otherwise consumes the quote, pops exactly one
delimiter, and emits STRING_END; a newline after at least one character
of content makes the call report no token. -/
theorem string_content_scanner_behavior
    (s : Scanner) (valid : TokenType → Bool) (pre rest : List Nat)
    (hv : valid .STRING_CONTENT = true)
    (hne : s.delimiter_stack ≠ [])
    (hIND : valid .INDENT = false)
    (e : Nat) (he : e = (s.delimiter_stack.getLastD ⟨0⟩).end_character)
    (he3 : e = 39 ∨ e = 34 ∨ e = 96)
    (hpre : ∀ c ∈ pre, strPlain e c) :
    (∀ c, c = 123 ∨ c = 125 ∨ c = 92 →
      scan s valid (pre ++ c :: rest) =
        ⟨decide (pre ≠ []), some .STRING_CONTENT, s, some pre.length⟩) ∧
    (pre ≠ [] →
      scan s valid (pre ++ e :: rest) =
        ⟨true, some .STRING_CONTENT, s, some pre.length⟩) ∧
    (scan s valid (e :: rest) =
      ⟨true, some .STRING_END,
        ⟨s.previous_indent_length, s.delimiter_stack.dropLast⟩, some 1⟩) ∧
    (pre ≠ [] →
      scan s valid (pre ++ 10 :: rest) = ⟨false, none, s, none⟩) := by
  have hrec : ((valid .STRING_CONTENT || valid .REGEX_CONTENT) && valid .INDENT) = false := by
    simp [hIND]
  have hguard : valid .STRING_CONTENT = true ∧ s.delimiter_stack ≠ [] ∧
      ((valid .STRING_CONTENT || valid .REGEX_CONTENT) && valid .INDENT) = false :=
    ⟨hv, hne, hrec⟩
  have hscan : ∀ inp, scan s valid inp =
      (match stringLoop e inp false 0 with
      | .ret res sym marked popped =>
        { result := res, symbol := sym,
          scanner :=
            if popped = true then
              { s with delimiter_stack := s.delimiter_stack.dropLast }
            else s,
          marked := marked }
      | .fallthrough remaining pos => scanAfterString s valid remaining pos) := by
    intro inp
    rw [scan, if_pos hguard, ← he]
  have hE : e ≠ 0 ∧ e ≠ 123 ∧ e ≠ 125 ∧ e ≠ 92 ∧ e ≠ 10 := by
    rcases he3 with rfl | rfl | rfl <;> exact ⟨by decide, by decide, by decide, by decide, by decide⟩
  refine ⟨?_, ?_, ?_, ?_⟩
  · intro c hc
    rw [hscan, stringLoop_run e pre (c :: rest) hpre]
    by_cases hp : pre = []
    · subst hp
      rcases hc with rfl | rfl | rfl <;> simp [stringLoop, hE.2.2.2.1]
    · rw [if_neg hp]
      rcases hc with rfl | rfl | rfl <;> simp [stringLoop, hp, hE.2.2.2.1]
  · intro hp
    rw [hscan, stringLoop_run e pre (e :: rest) hpre, if_neg hp]
    simp [stringLoop, hE.1, hE.2.1, hE.2.2.1, hE.2.2.2.1]
  · rw [hscan]
    simp [stringLoop, hE.1, hE.2.1, hE.2.2.1, hE.2.2.2.1]
  · intro hp
    rw [hscan, stringLoop_run e pre (10 :: rest) hpre, if_neg hp]
    simp [stringLoop, Ne.symm hE.2.2.2.2]

/-- Witness for C4: inside a double-quoted string (delimiter flags 2,
closing character 34), content then a brace, content then the quote, the
bare quote, and content then a newline. -/
theorem string_content_scanner_behavior_w :
    scan ⟨0, [⟨2⟩]⟩ validString [97, 123] =
      ⟨true, some .STRING_CONTENT, ⟨0, [⟨2⟩]⟩, some 1⟩ ∧
    scan ⟨0, [⟨2⟩]⟩ validString [97, 34] =
      ⟨true, some .STRING_CONTENT, ⟨0, [⟨2⟩]⟩, some 1⟩ ∧
    scan ⟨0, [⟨2⟩]⟩ validString [34, 99] =
      ⟨true, some .STRING_END, ⟨0, []⟩, some 1⟩ ∧
    scan ⟨0, [⟨2⟩]⟩ validString [97, 10] = ⟨false, none, ⟨0, [⟨2⟩]⟩, none⟩ := by
  have h1 := string_content_scanner_behavior ⟨0, [⟨2⟩]⟩ validString [97] []
    (by decide) (by decide) (by decide) 34 (by decide) (by decide) (by decide)
  have h2 := string_content_scanner_behavior ⟨0, [⟨2⟩]⟩ validString [97] [99]
    (by decide) (by decide) (by decide) 34 (by decide) (by decide) (by decide)
  exact ⟨h1.1 123 (Or.inl rfl), h1.2.1 (by decide), h2.2.2.1, h1.2.2.2 (by decide)⟩

/-- C7 (amended): with regex-content requested, no recovery-situation
indentation request, and the string-content section not running first
(string-content not requested or the delimiter stack empty), the
regex-content scanner stops unconsuming at a backslash and emits
REGEX_CONTENT exactly when at least one character was consumed; at a
slash it emits REGEX_CONTENT (slash unconsumed) when content was
accumulated and otherwise consumes the slash and emits REGEX_END; a
newline after nonempty content reports no token; running off the end of
the input yields no regex token but falls through to the layout scanner,
reporting no token when the baseline is 0 and NEWLINE is not requested.
The scanner state (including the delimiter stack) is unchanged in every
case. -/
theorem regex_content_scanner_behavior
    (s : Scanner) (valid : TokenType → Bool) (pre rest : List Nat)
    (hns : valid .STRING_CONTENT = false ∨ s.delimiter_stack = [])
    (hv : valid .REGEX_CONTENT = true)
    (hIND : valid .INDENT = false)
    (hpre : ∀ c ∈ pre, rPlain c) :
    (scan s valid (pre ++ 92 :: rest) =
      ⟨decide (pre ≠ []), some .REGEX_CONTENT, s, some pre.length⟩) ∧
    (pre ≠ [] →
      scan s valid (pre ++ 47 :: rest) =
        ⟨true, some .REGEX_CONTENT, s, some pre.length⟩) ∧
    (scan s valid (47 :: rest) = ⟨true, some .REGEX_END, s, some 1⟩) ∧
    (pre ≠ [] →
      scan s valid (pre ++ 10 :: rest) = ⟨false, none, s, none⟩) ∧
    (s.previous_indent_length = 0 → valid .NEWLINE = false →
      scan s valid pre = ⟨false, none, s, some pre.length⟩) := by
  have hrec : ((valid .STRING_CONTENT || valid .REGEX_CONTENT) && valid .INDENT) = false := by
    simp [hIND]
  have hnguard : ¬(valid .STRING_CONTENT = true ∧ s.delimiter_stack ≠ [] ∧
      ((valid .STRING_CONTENT || valid .REGEX_CONTENT) && valid .INDENT) = false) := by
    rcases hns with h | h <;> simp [h]
  have hscan : ∀ inp, scan s valid inp =
      (match regexLoop inp false 0 with
      | .ret res sym marked _ =>
        { result := res, symbol := sym, scanner := s, marked := marked }
      | .fallthrough remaining pos2 => layoutScan s valid remaining pos2) := by
    intro inp
    rw [scan, if_neg hnguard, scanAfterString, if_pos ⟨hv, hrec⟩]
  refine ⟨?_, ?_, ?_, ?_, ?_⟩
  · rw [hscan, regexLoop_run pre (92 :: rest) hpre]
    by_cases hp : pre = []
    · subst hp
      simp [regexLoop]
    · simp [regexLoop, hp]
  · intro hp
    rw [hscan, regexLoop_run pre (47 :: rest) hpre, if_neg hp]
    simp [regexLoop]
  · rw [hscan]
    simp [regexLoop]
  · intro hp
    rw [hscan, regexLoop_run pre (10 :: rest) hpre, if_neg hp]
    simp [regexLoop]
  · intro hprev hNL
    have hfall : regexLoop pre false 0 = .fallthrough [] pre.length := by
      have := regexLoop_run pre [] hpre
      rw [List.append_nil] at this
      rw [this]
      by_cases hp : pre = []
      · subst hp
        simp [regexLoop]
      · simp [regexLoop, hp]
    rw [hscan, hfall]
    have hll : layoutLoop false ([] : List Nat) false 0 (-1) = .done true 0 (-1) [] := rfl
    simp [layoutScan, hll, scanPhaseC, hIND, hprev, hNL]

/-- Counterexample for C7 as frozen: with only regex-content requested
and a positive stored baseline, reaching end of input after one plain
character does not report "no token" - the call falls through to the
layout scanner and commits DEDENT. -/
theorem regex_content_eof_counterexample :
    (scan ⟨5, []⟩ (validOnly .REGEX_CONTENT) [97]).result = true ∧
    (scan ⟨5, []⟩ (validOnly .REGEX_CONTENT) [97]).symbol = some .DEDENT := by
  constructor <;> decide

/-- Witness for C7: regex content before a backslash, before a slash,
a bare closing slash, content then newline, and plain content to end of
input with baseline 0. -/
theorem regex_content_scanner_behavior_w :
    scan ⟨0, []⟩ (validOnly .REGEX_CONTENT) [97, 92] =
      ⟨true, some .REGEX_CONTENT, ⟨0, []⟩, some 1⟩ ∧
    scan ⟨0, []⟩ (validOnly .REGEX_CONTENT) [97, 47] =
      ⟨true, some .REGEX_CONTENT, ⟨0, []⟩, some 1⟩ ∧
    scan ⟨0, []⟩ (validOnly .REGEX_CONTENT) [47, 98] =
      ⟨true, some .REGEX_END, ⟨0, []⟩, some 1⟩ ∧
    scan ⟨0, []⟩ (validOnly .REGEX_CONTENT) [97, 10] = ⟨false, none, ⟨0, []⟩, none⟩ ∧
    scan ⟨0, []⟩ (validOnly .REGEX_CONTENT) [97] = ⟨false, none, ⟨0, []⟩, some 1⟩ := by
  have h1 := regex_content_scanner_behavior ⟨0, []⟩ (validOnly .REGEX_CONTENT) [97] []
    (Or.inl (by decide)) (by decide) (by decide) (by decide)
  have h2 := regex_content_scanner_behavior ⟨0, []⟩ (validOnly .REGEX_CONTENT) [97] [98]
    (Or.inl (by decide)) (by decide) (by decide) (by decide)
  exact ⟨h1.1, h1.2.1 (by decide), h2.2.2.1, h1.2.2.2.1 (by decide),
    h1.2.2.2.2 rfl (by decide)⟩

/-- Phase C returns one of exactly three outcomes: STRING_START pushing
one freshly constructed delimiter (flags 1, 2 or 4), REGEX_START with
the state unchanged, or the negative result with the state unchanged. -/
theorem scanPhaseC_spec (s : Scanner) (valid : TokenType → Bool) (fc : Int)
    (remaining : List Nat) (pos pos0 : Nat) :
    (∃ d, (d.flags = 1 ∨ d.flags = 2 ∨ d.flags = 4) ∧
      scanPhaseC s valid fc remaining pos pos0 =
        ⟨true, some .STRING_START,
          ⟨s.previous_indent_length, s.delimiter_stack ++ [d]⟩, some (pos + 1)⟩) ∨
    scanPhaseC s valid fc remaining pos pos0 =
      ⟨true, some .REGEX_START, s, some (pos + 1)⟩ ∨
    scanPhaseC s valid fc remaining pos pos0 =
      ⟨false, none, s, some pos0⟩ := by
  by_cases h1 : fc = -1 ∧ valid .STRING_START = true
  · cases remaining with
    | nil =>
      right
      right
      simp [scanPhaseC, h1]
    | cons c tail =>
      by_cases hq : c = 96 ∨ c = 39 ∨ c = 34
      · left
        refine ⟨Delimiter.set_end_character ⟨0⟩ c, ?_, by simp [scanPhaseC, h1, hq]⟩
        rcases hq with rfl | rfl | rfl
        · exact Or.inr (Or.inr (by decide))
        · exact Or.inl (by decide)
        · exact Or.inr (Or.inl (by decide))
      · by_cases h2 : valid .REGEX_START = true ∧ c = 47
        · right
          left
          simp [scanPhaseC, h1, hq, h2.1, h2.2]
        · right
          right
          simp only [scanPhaseC, h1, hq]
          simp
          intro ha hb
          exact h2 ⟨ha, hb⟩
  · have hss : ¬valid .STRING_START = true ∨ ¬fc = -1 := by
      by_cases hf : fc = -1
      · exact Or.inl fun h => h1 ⟨hf, h⟩
      · exact Or.inr hf
    by_cases h2 : fc = -1 ∧ valid .REGEX_START = true ∧ remaining.headD 0 = 47
    · right
      left
      obtain ⟨hfc, hrs, hhd⟩ := h2
      rw [List.headD_eq_head?] at hhd
      rcases hss with hns | hnf
      · simp [scanPhaseC, h1, hrs, hfc, hhd, hns]
      · exact absurd hfc hnf
    · right
      right
      simp only [scanPhaseC, h1]
      simp
      intro ha hb hc
      rw [← List.headD_eq_head?] at hc
      exact h2 ⟨ha, hb, hc⟩

/-- C5: once Phase A has crossed a line boundary (found_end_of_line is
true), the layout scanner commits DEDENT exactly when DEDENT is
requested or NEWLINE is not requested and none of the three
bracket-close kinds is requested, the stored baseline is positive, the
measured indentation is 0, and the first comment of the run is absent
(-1) or began strictly left of the baseline; committing sets the
baseline to 0.  A comment indented exactly to the baseline therefore
blocks the DEDENT (its recorded indent is not less than the baseline),
while one indented strictly less allows it. -/
theorem dedent_commit_iff
    (s : Scanner) (valid : TokenType → Bool) (input : List Nat) (pos0 : Nat)
    (found : Bool) (indent : Nat) (fc : Int) (remaining : List Nat)
    (hA : layoutLoop false input false 0 (-1) = .done found indent fc remaining)
    (hfound : found = true) :
    (((layoutScan s valid input pos0).result = true ∧
      (layoutScan s valid input pos0).symbol = some .DEDENT) ↔
      ((valid .DEDENT = true ∨
          (valid .NEWLINE = false ∧ valid .CLOSE_BRACE = false ∧
            valid .CLOSE_PAREN = false ∧ valid .CLOSE_BRACKET = false)) ∧
        0 < s.previous_indent_length ∧ indent = 0 ∧
        (fc = -1 ∨ fc < (s.previous_indent_length : Int)))) ∧
    ((layoutScan s valid input pos0).symbol = some .DEDENT →
      (layoutScan s valid input pos0).scanner.previous_indent_length = 0) := by
  subst hfound
  by_cases hD : (valid .DEDENT = true ∨
      (valid .NEWLINE = false ∧ valid .CLOSE_BRACE = false ∧
        valid .CLOSE_PAREN = false ∧ valid .CLOSE_BRACKET = false)) ∧
      0 < s.previous_indent_length ∧ indent = 0 ∧
      (fc = -1 ∨ fc < (s.previous_indent_length : Int))
  · obtain ⟨hor, hp, hi, hfc⟩ := hD
    have hcond1 : ¬(True ∧ valid .INDENT = true ∧
        s.previous_indent_length = 0 ∧ 0 < indent) := by
      intro ⟨_, _, h0, _⟩
      omega
    have hcond2 : True ∧
        (valid .DEDENT = true ∨ (valid .NEWLINE = false ∧
          (valid .CLOSE_BRACE || valid .CLOSE_PAREN || valid .CLOSE_BRACKET) = false)) ∧
        0 < s.previous_indent_length ∧ indent = 0 ∧
        fc < (s.previous_indent_length : Int) := by
      refine ⟨trivial, ?_, hp, hi, ?_⟩
      · rcases hor with h | ⟨hn, h1, h2, h3⟩
        · exact Or.inl h
        · exact Or.inr ⟨hn, by simp [h1, h2, h3]⟩
      · rcases hfc with rfl | h
        · omega
        · exact h
    simp only [layoutScan, hA]
    rw [if_neg hcond1, if_pos hcond2]
    refine ⟨iff_of_true (by simp) ⟨hor, hp, hi, hfc⟩, ?_⟩
    intro _
    simp [hi]
  · have hsym : (layoutScan s valid input pos0).symbol ≠ some .DEDENT := by
      simp only [layoutScan, hA]
      by_cases h1 : True ∧ valid .INDENT = true ∧
          s.previous_indent_length = 0 ∧ 0 < indent
      · rw [if_pos h1]
        simp
      · rw [if_neg h1]
        have h2 : ¬(True ∧
            (valid .DEDENT = true ∨ (valid .NEWLINE = false ∧
              (valid .CLOSE_BRACE || valid .CLOSE_PAREN || valid .CLOSE_BRACKET) = false)) ∧
            0 < s.previous_indent_length ∧ indent = 0 ∧
            fc < (s.previous_indent_length : Int)) := by
          intro ⟨_, hor, hp, hi, hfc⟩
          refine hD ⟨?_, hp, hi, Or.inr hfc⟩
          rcases hor with h | ⟨hn, hb⟩
          · exact Or.inl h
          · simp at hb
            exact Or.inr ⟨hn, hb.1.1, hb.1.2, hb.2⟩
        rw [if_neg h2]
        by_cases h3 : True ∧ valid .NEWLINE = true ∧
            ((valid .STRING_CONTENT || valid .REGEX_CONTENT) && valid .INDENT) = false
        · rw [if_pos h3]
          simp
        · rw [if_neg h3]
          rcases scanPhaseC_spec s valid fc remaining
              (pos0 + (input.length - remaining.length)) pos0 with ⟨d, _, hc⟩ | hc | hc <;>
            rw [hc] <;> simp
    exact ⟨iff_of_false (fun h => hsym h.2) hD, fun h => absurd h hsym⟩

/-- Witness for C5: baseline 4, input a newline then a dedented
statement character, only DEDENT requested. -/
theorem dedent_commit_iff_w :
    (layoutScan ⟨4, []⟩ (validOnly .DEDENT) [10, 120] 0).result = true ∧
    (layoutScan ⟨4, []⟩ (validOnly .DEDENT) [10, 120] 0).symbol = some .DEDENT ∧
    (layoutScan ⟨4, []⟩ (validOnly .DEDENT) [10, 120] 0).scanner.previous_indent_length = 0 := by
  have h := dedent_commit_iff ⟨4, []⟩ (validOnly .DEDENT) [10, 120] 0
    true 0 (-1) [120] (by decide) rfl
  have h2 := h.1.mpr ⟨Or.inl (by decide), by decide, rfl, Or.inl rfl⟩
  exact ⟨h2.1, h2.2, h.2 h2.2⟩

/-- Phase A consumes a run of blank-ish whitespace (spaces, tabs,
newlines, carriage returns, form feeds) after a line boundary has been
crossed, accumulating the indentation measure wsStep: plus 1 per space,
plus 8 per tab, reset to 0 by newline, carriage return and form feed. -/
theorem layoutLoop_ws (ws : List Nat) (c : Nat) (rest : List Nat) (acc : Nat) (fc : Int)
    (hws : ∀ w ∈ ws, w = 32 ∨ w = 9 ∨ w = 10 ∨ w = 13 ∨ w = 12)
    (hc : c ≠ 32 ∧ c ≠ 9 ∧ c ≠ 10 ∧ c ≠ 13 ∧ c ≠ 12 ∧ c ≠ 35 ∧ c ≠ 92 ∧ c ≠ 0) :
    layoutLoop false (ws ++ c :: rest) true acc fc =
      .done true (ws.foldl wsStep acc) fc (c :: rest) := by
  induction ws generalizing acc with
  | nil =>
    obtain ⟨h1, h2, h3, h4, h5, h6, h7, h8⟩ := hc
    simp only [List.nil_append, List.foldl_nil]
    rw [layoutLoop.eq_def]
    simp [h1, h2, h3, h4, h5, h6, h7, h8]
  | cons w ws ih =>
    have hwrest : ∀ x ∈ ws, x = 32 ∨ x = 9 ∨ x = 10 ∨ x = 13 ∨ x = 12 :=
      fun x hx => hws x (by simp [hx])
    rcases hws w (by simp) with rfl | rfl | rfl | rfl | rfl
    · have hrec := ih ((acc + 1) % 4294967296) hwrest
      simp only [List.cons_append, List.foldl_cons]
      rw [layoutLoop.eq_def]
      norm_num [wsStep, hrec]
    · have hrec := ih ((acc + 8) % 4294967296) hwrest
      simp only [List.cons_append, List.foldl_cons]
      rw [layoutLoop.eq_def]
      norm_num [wsStep, hrec]
    · have hrec := ih 0 hwrest
      simp only [List.cons_append, List.foldl_cons]
      rw [layoutLoop.eq_def]
      norm_num [wsStep, hrec]
    · have hrec := ih 0 hwrest
      simp only [List.cons_append, List.foldl_cons]
      rw [layoutLoop.eq_def]
      norm_num [wsStep, hrec]
    · have hrec := ih 0 hwrest
      simp only [List.cons_append, List.foldl_cons]
      rw [layoutLoop.eq_def]
      norm_num [wsStep, hrec]

/-- C6 (amended): once Phase A has crossed a line boundary, the layout
scanner commits INDENT exactly when INDENT is requested, the stored
baseline is 0 and the measured indent_length is positive; committing
stores the measured indent_length reduced modulo 65536 into the 16-bit
baseline field (the value itself whenever it is below 65536).  The
measured indent_length accumulates 1 per space and 8 per tab (so one tab
then two spaces measures 10) and is reset to 0 by newline, carriage
return and form feed, as the third conjunct states via wsStep. -/
theorem indent_commit_iff
    (s : Scanner) (valid : TokenType → Bool) (input : List Nat) (pos0 : Nat)
    (found : Bool) (indent : Nat) (fc : Int) (remaining : List Nat)
    (hA : layoutLoop false input false 0 (-1) = .done found indent fc remaining)
    (hfound : found = true) :
    (((layoutScan s valid input pos0).result = true ∧
      (layoutScan s valid input pos0).symbol = some .INDENT) ↔
      (valid .INDENT = true ∧ s.previous_indent_length = 0 ∧ 0 < indent)) ∧
    ((valid .INDENT = true ∧ s.previous_indent_length = 0 ∧ 0 < indent) →
      (layoutScan s valid input pos0).scanner.previous_indent_length = indent % 65536) ∧
    (∀ ws c rest, (∀ w ∈ ws, w = 32 ∨ w = 9 ∨ w = 10 ∨ w = 13 ∨ w = 12) →
      (c ≠ 32 ∧ c ≠ 9 ∧ c ≠ 10 ∧ c ≠ 13 ∧ c ≠ 12 ∧ c ≠ 35 ∧ c ≠ 92 ∧ c ≠ 0) →
      layoutLoop false (10 :: (ws ++ c :: rest)) false 0 (-1) =
        .done true (wsMeasure ws) (-1) (c :: rest)) := by
  subst hfound
  refine ⟨?_, ?_, ?_⟩
  · by_cases hI : valid .INDENT = true ∧ s.previous_indent_length = 0 ∧ 0 < indent
    · simp only [layoutScan, hA]
      rw [if_pos ⟨trivial, hI.1, hI.2.1, hI.2.2⟩]
      exact iff_of_true (by simp) hI
    · have hsym : (layoutScan s valid input pos0).symbol ≠ some .INDENT := by
        simp only [layoutScan, hA]
        rw [if_neg fun h => hI ⟨h.2.1, h.2.2.1, h.2.2.2⟩]
        by_cases h2 : True ∧
            (valid .DEDENT = true ∨ (valid .NEWLINE = false ∧
              (valid .CLOSE_BRACE || valid .CLOSE_PAREN || valid .CLOSE_BRACKET) = false)) ∧
            0 < s.previous_indent_length ∧ indent = 0 ∧
            fc < (s.previous_indent_length : Int)
        · rw [if_pos h2]
          simp
        · rw [if_neg h2]
          by_cases h3 : True ∧ valid .NEWLINE = true ∧
              ((valid .STRING_CONTENT || valid .REGEX_CONTENT) && valid .INDENT) = false
          · rw [if_pos h3]
            simp
          · rw [if_neg h3]
            rcases scanPhaseC_spec s valid fc remaining
                (pos0 + (input.length - remaining.length)) pos0 with ⟨d, _, hc⟩ | hc | hc <;>
              rw [hc] <;> simp
      exact iff_of_false (fun h => hsym h.2) hI
  · intro hI
    simp only [layoutScan, hA]
    rw [if_pos ⟨trivial, hI.1, hI.2.1, hI.2.2⟩]
  · intro ws c rest hws hc
    have hstep : layoutLoop false (10 :: (ws ++ c :: rest)) false 0 (-1) =
        layoutLoop false (ws ++ c :: rest) true 0 (-1) := by
      rw [layoutLoop.eq_def]
      norm_num
    rw [hstep, layoutLoop_ws ws c rest 0 (-1) hws hc]
    rfl

/-- Folding the tab step over n tabs adds 8 per tab (uint32). -/
theorem foldl_wsStep_replicate_tab (n : Nat) : ∀ acc, acc < 4294967296 →
    (List.replicate n 9).foldl wsStep acc = (acc + 8 * n) % 4294967296 := by
  induction n with
  | zero =>
    intro acc h
    simp [Nat.mod_eq_of_lt h]
  | succ n ih =>
    intro acc h
    rw [List.replicate_succ, List.foldl_cons]
    have hstep : wsStep acc 9 = (acc + 8) % 4294967296 := by
      simp [wsStep]
    rw [hstep, ih ((acc + 8) % 4294967296) (Nat.mod_lt _ (by norm_num))]
    rw [Nat.mod_add_mod]
    congr 1
    ring

/-- One newline step of Phase A: sets found_end_of_line and resets the
indent measure. -/
theorem layoutLoop_newline (rest : List Nat) (found : Bool) (acc : Nat) (fc : Int) :
    layoutLoop false (10 :: rest) found acc fc = layoutLoop false rest true 0 fc := by
  rw [layoutLoop.eq_def]
  norm_num

/-- Counterexample for the "sets the baseline to the measured indent_length" part of C6:
a line indented by 8192 tabs measures 65536, INDENT is committed, but
the stored 16-bit baseline becomes 65536 % 65536 = 0, not the measured
value. -/
theorem indent_commit_truncation_counterexample :
    layoutLoop false (10 :: (List.replicate 8192 9 ++ [120])) false 0 (-1) =
      .done true 65536 (-1) [120] ∧
    (scan ⟨0, []⟩ (validOnly .INDENT) (10 :: (List.replicate 8192 9 ++ [120]))).result = true ∧
    (scan ⟨0, []⟩ (validOnly .INDENT) (10 :: (List.replicate 8192 9 ++ [120]))).symbol =
      some .INDENT ∧
    (scan ⟨0, []⟩ (validOnly .INDENT)
      (10 :: (List.replicate 8192 9 ++ [120]))).scanner.previous_indent_length = 0 ∧
    (0 : Nat) ≠ 65536 := by
  have hws : ∀ w ∈ List.replicate 8192 (9 : Nat), w = 32 ∨ w = 9 ∨ w = 10 ∨ w = 13 ∨ w = 12 := by
    intro w hw
    rw [List.eq_of_mem_replicate hw]
    norm_num
  have hmeas : (List.replicate 8192 (9 : Nat)).foldl wsStep 0 = 65536 := by
    rw [foldl_wsStep_replicate_tab 8192 0 (by norm_num)]
  have hfull : layoutLoop false (10 :: (List.replicate 8192 9 ++ [120])) false 0 (-1) =
      .done true 65536 (-1) [120] := by
    rw [layoutLoop_newline,
      layoutLoop_ws (List.replicate 8192 9) 120 [] 0 (-1) hws (by norm_num), hmeas]
  have hscan : scan ⟨0, []⟩ (validOnly .INDENT) (10 :: (List.replicate 8192 9 ++ [120])) =
      layoutScan ⟨0, []⟩ (validOnly .INDENT) (10 :: (List.replicate 8192 9 ++ [120])) 0 := by
    rw [scan, if_neg (by decide), scanAfterString, if_neg (by decide)]
  refine ⟨hfull, ?_, ?_, ?_, by norm_num⟩
  · rw [hscan]
    simp only [layoutScan]
    rw [hfull]
    decide
  · rw [hscan]
    simp only [layoutScan]
    rw [hfull]
    decide
  · rw [hscan]
    simp only [layoutScan]
    rw [hfull]
    decide

/-- Witness for C6: a newline, one tab and two spaces measure 10
(8 + 2); with baseline 0 and INDENT requested the scanner commits INDENT
and stores 10. -/
theorem indent_commit_iff_w :
    (layoutScan ⟨0, []⟩ (validOnly .INDENT) [10, 9, 32, 32, 120] 0).result = true ∧
    (layoutScan ⟨0, []⟩ (validOnly .INDENT) [10, 9, 32, 32, 120] 0).symbol = some .INDENT ∧
    (layoutScan ⟨0, []⟩ (validOnly .INDENT)
      [10, 9, 32, 32, 120] 0).scanner.previous_indent_length = 10 % 65536 ∧
    layoutLoop false (10 :: ([9, 32, 32] ++ [120])) false 0 (-1) =
      .done true (wsMeasure [9, 32, 32]) (-1) [120] := by
  have h := indent_commit_iff ⟨0, []⟩ (validOnly .INDENT) [10, 9, 32, 32, 120] 0
    true 10 (-1) [120] (by decide) rfl
  have h2 := h.1.mpr ⟨by decide, rfl, by norm_num⟩
  exact ⟨h2.1, h2.2, h.2.1 ⟨by decide, rfl, by norm_num⟩,
    h.2.2 [9, 32, 32] 120 [] (by decide) (by decide)⟩

/-- C8: during Phase A, a backslash followed by an optional carriage
return and then a newline is consumed silently (found_end_of_line,
indent_length and the comment record are all left untouched); when the
character after the backslash, after an optional carriage return, is not
a newline (including end of input), Phase A fails and the whole call
returns the negative result with no symbol stored and the state
unchanged. -/
theorem line_continuation_behavior :
    (∀ rest found acc fc, layoutLoop false (92 :: 10 :: rest) found acc fc =
      layoutLoop false rest found acc fc) ∧
    (∀ rest found acc fc, layoutLoop false (92 :: 13 :: 10 :: rest) found acc fc =
      layoutLoop false rest found acc fc) ∧
    (∀ c rest found acc fc, c ≠ 13 → c ≠ 10 →
      layoutLoop false (92 :: c :: rest) found acc fc = .fail) ∧
    (∀ c rest found acc fc, c ≠ 10 →
      layoutLoop false (92 :: 13 :: c :: rest) found acc fc = .fail) ∧
    (∀ found acc fc, layoutLoop false [92] found acc fc = .fail ∧
      layoutLoop false [92, 13] found acc fc = .fail) ∧
    (∀ (s : Scanner) (valid : TokenType → Bool) (input : List Nat) (pos0 : Nat),
      layoutLoop false input false 0 (-1) = .fail →
      layoutScan s valid input pos0 = ⟨false, none, s, some pos0⟩) := by
  refine ⟨?_, ?_, ?_, ?_, ?_, ?_⟩
  · intro rest found acc fc
    rw [layoutLoop.eq_def]
    norm_num
  · intro rest found acc fc
    rw [layoutLoop.eq_def]
    norm_num
  · intro c rest found acc fc h13 h10
    rw [layoutLoop.eq_def]
    norm_num
    cases c with
    | zero => simp_all
    | succ n =>
      cases rest <;> simp_all
  · intro c rest found acc fc h10
    rw [layoutLoop.eq_def]
    norm_num
    simp_all
  · intro found acc fc
    constructor <;> (rw [layoutLoop.eq_def]; norm_num)
  · intro s valid input pos0 hfail
    simp only [layoutScan]
    rw [hfail]

/-- Witness for C8: a continuation backslash-newline is skipped
silently; a backslash followed by a letter makes Phase A fail and the
layout scanner return the negative result with the state unchanged. -/
theorem line_continuation_behavior_w :
    layoutLoop false [92, 10, 32, 120] false 0 (-1) =
      layoutLoop false [32, 120] false 0 (-1) ∧
    layoutLoop false [92, 97] false 0 (-1) = .fail ∧
    layoutScan ⟨0, []⟩ validNone [92, 97] 0 = ⟨false, none, ⟨0, []⟩, some 0⟩ := by
  have h := line_continuation_behavior
  refine ⟨h.1 [32, 120] false 0 (-1), h.2.2.1 97 [] false 0 (-1) (by decide) (by decide), ?_⟩
  exact h.2.2.2.2.2 ⟨0, []⟩ validNone [92, 97] 0
    (h.2.2.1 97 [] false 0 (-1) (by decide) (by decide))

/-- The string-content loop pops only on the STRING_END path, which
returns true. -/
theorem stringLoop_popped_result (e : Nat) (l : List Nat) (has : Bool) (pos : Nat)
    (res : Bool) (sym : Option TokenType) (m : Option Nat) (p : Bool)
    (h : stringLoop e l has pos = .ret res sym m p) : p = true → res = true := by
  induction l generalizing has pos with
  | nil =>
    rw [stringLoop] at h
    exact absurd h (by simp)
  | cons c rest ih =>
    rw [stringLoop] at h
    by_cases h0 : c = 0
    · simp [h0] at h
    · rw [if_neg h0] at h
      by_cases h1 : c = 123 ∨ c = 125
      · rw [if_pos h1] at h
        obtain ⟨rfl, _, _, rfl⟩ := ContentRes.ret.inj h
        simp
      · rw [if_neg h1] at h
        by_cases h2 : c = 92
        · rw [if_pos h2] at h
          obtain ⟨rfl, _, _, rfl⟩ := ContentRes.ret.inj h
          simp
        · rw [if_neg h2] at h
          by_cases h3 : c = e
          · rw [if_pos h3] at h
            by_cases h4 : has = true
            · rw [if_pos h4] at h
              obtain ⟨rfl, _, _, rfl⟩ := ContentRes.ret.inj h
              simp
            · rw [if_neg h4] at h
              obtain ⟨rfl, _, _, rfl⟩ := ContentRes.ret.inj h
              simp
          · rw [if_neg h3] at h
            by_cases h5 : c = 10 ∧ has = true
            · rw [if_pos h5] at h
              obtain ⟨rfl, _, _, rfl⟩ := ContentRes.ret.inj h
              simp
            · rw [if_neg h5] at h
              exact ih true (pos + 1) h

/-- The layout scanner never changes the delimiter stack except by the
Phase C push, and never changes the baseline except on INDENT (from 0)
and DEDENT (to 0). -/
theorem layoutScan_state (s : Scanner) (valid : TokenType → Bool) (input : List Nat)
    (pos0 : Nat) :
    ((layoutScan s valid input pos0).scanner.previous_indent_length =
        s.previous_indent_length ∨
      (s.previous_indent_length = 0 ∧
        (layoutScan s valid input pos0).symbol = some .INDENT) ∨
      ((layoutScan s valid input pos0).scanner.previous_indent_length = 0 ∧
        (layoutScan s valid input pos0).symbol = some .DEDENT)) ∧
    ((layoutScan s valid input pos0).result = false →
      (layoutScan s valid input pos0).scanner = s) ∧
    ((layoutScan s valid input pos0).scanner.delimiter_stack = s.delimiter_stack ∨
      (∃ d, (d.flags = 1 ∨ d.flags = 2 ∨ d.flags = 4) ∧
        (layoutScan s valid input pos0).scanner.delimiter_stack =
          s.delimiter_stack ++ [d])) := by
  simp only [layoutScan]
  rcases hA : layoutLoop false input false 0 (-1) with _ | ⟨found, indent, fc, remaining⟩
  · exact ⟨Or.inl rfl, fun _ => rfl, Or.inl rfl⟩
  · dsimp only
    by_cases h1 : found = true ∧ valid .INDENT = true ∧
        s.previous_indent_length = 0 ∧ 0 < indent
    · rw [if_pos h1]
      exact ⟨Or.inr (Or.inl ⟨h1.2.2.1, rfl⟩), by simp, Or.inl rfl⟩
    · rw [if_neg h1]
      by_cases h2 : found = true ∧
          (valid .DEDENT = true ∨ (valid .NEWLINE = false ∧
            (valid .CLOSE_BRACE || valid .CLOSE_PAREN || valid .CLOSE_BRACKET) = false)) ∧
          0 < s.previous_indent_length ∧ indent = 0 ∧
          fc < (s.previous_indent_length : Int)
      · rw [if_pos h2]
        refine ⟨Or.inr (Or.inr ⟨?_, rfl⟩), by simp, Or.inl rfl⟩
        simp [h2.2.2.2.1]
      · rw [if_neg h2]
        by_cases h3 : found = true ∧ valid .NEWLINE = true ∧
            ((valid .STRING_CONTENT || valid .REGEX_CONTENT) && valid .INDENT) = false
        · rw [if_pos h3]
          exact ⟨Or.inl rfl, by simp, Or.inl rfl⟩
        · rw [if_neg h3]
          rcases scanPhaseC_spec s valid fc remaining
              (pos0 + (input.length - remaining.length)) pos0 with ⟨d, hd, hc⟩ | hc | hc <;>
            rw [hc]
          · exact ⟨Or.inl rfl, by simp, Or.inr ⟨d, hd, rfl⟩⟩
          · exact ⟨Or.inl rfl, by simp, Or.inl rfl⟩
          · exact ⟨Or.inl rfl, fun _ => rfl, Or.inl rfl⟩

/-- State effects of the regex section followed by the layout scanner:
the same three facts as for layoutScan, since the regex loop itself
never touches the scanner state. -/
theorem scanAfterString_state (s : Scanner) (valid : TokenType → Bool)
    (input : List Nat) (pos : Nat) :
    ((scanAfterString s valid input pos).scanner.previous_indent_length =
        s.previous_indent_length ∨
      (s.previous_indent_length = 0 ∧
        (scanAfterString s valid input pos).symbol = some .INDENT) ∨
      ((scanAfterString s valid input pos).scanner.previous_indent_length = 0 ∧
        (scanAfterString s valid input pos).symbol = some .DEDENT)) ∧
    ((scanAfterString s valid input pos).result = false →
      (scanAfterString s valid input pos).scanner = s) ∧
    ((scanAfterString s valid input pos).scanner.delimiter_stack = s.delimiter_stack ∨
      (∃ d, (d.flags = 1 ∨ d.flags = 2 ∨ d.flags = 4) ∧
        (scanAfterString s valid input pos).scanner.delimiter_stack =
          s.delimiter_stack ++ [d])) := by
  rw [scanAfterString]
  by_cases hg : valid .REGEX_CONTENT = true ∧
      ((valid .STRING_CONTENT || valid .REGEX_CONTENT) && valid .INDENT) = false
  · rw [if_pos hg]
    rcases hr : regexLoop input false pos with ⟨res, sym, m, p⟩ | ⟨remaining, pos2⟩
    · exact ⟨Or.inl rfl, fun _ => rfl, Or.inl rfl⟩
    · exact layoutScan_state s valid remaining pos2
  · rw [if_neg hg]
    exact layoutScan_state s valid input pos

/-- C9: one scan call either leaves the baseline unchanged, raises it
from 0 while committing INDENT, or resets it to 0 while committing
DEDENT; in particular no call moves it directly between two different
positive values. -/
theorem baseline_transitions (s : Scanner) (valid : TokenType → Bool)
    (input : List Nat) :
    (scan s valid input).scanner.previous_indent_length = s.previous_indent_length ∨
    (s.previous_indent_length = 0 ∧ (scan s valid input).symbol = some .INDENT) ∨
    ((scan s valid input).scanner.previous_indent_length = 0 ∧
      (scan s valid input).symbol = some .DEDENT) := by
  rw [scan]
  by_cases hg : valid .STRING_CONTENT = true ∧ s.delimiter_stack ≠ [] ∧
      ((valid .STRING_CONTENT || valid .REGEX_CONTENT) && valid .INDENT) = false
  · rw [if_pos hg]
    rcases hr : stringLoop (s.delimiter_stack.getLastD ⟨0⟩).end_character input false 0 with
      ⟨res, sym, m, p⟩ | ⟨remaining, pos⟩
    · left
      dsimp only
      by_cases hp : p = true <;> simp [hp]
    · exact (scanAfterString_state s valid remaining pos).1
  · rw [if_neg hg]
    exact (scanAfterString_state s valid input 0).1

/-- C10: a scan call that returns the negative result leaves the State
Store unchanged: the same delimiter stack and the same baseline. -/
theorem scan_false_preserves_state (s : Scanner) (valid : TokenType → Bool)
    (input : List Nat) (h : (scan s valid input).result = false) :
    (scan s valid input).scanner = s := by
  rw [scan] at h ⊢
  by_cases hg : valid .STRING_CONTENT = true ∧ s.delimiter_stack ≠ [] ∧
      ((valid .STRING_CONTENT || valid .REGEX_CONTENT) && valid .INDENT) = false
  · rw [if_pos hg] at h ⊢
    rcases hr : stringLoop (s.delimiter_stack.getLastD ⟨0⟩).end_character input false 0 with
      ⟨res, sym, m, p⟩ | ⟨remaining, pos⟩
    · rw [hr] at h
      dsimp only at h ⊢
      have hp : p ≠ true := fun hp =>
        by simp [stringLoop_popped_result _ _ _ _ _ _ _ _ hr hp] at h
      simp [hp]
    · rw [hr] at h
      dsimp only at h ⊢
      exact (scanAfterString_state s valid remaining pos).2.1 h
  · rw [if_neg hg] at h ⊢
    exact (scanAfterString_state s valid input 0).2.1 h

/-- Witness for C10: no kind requested, one plain character: the call
reports no token and the state is unchanged. -/
theorem scan_false_preserves_state_w :
    (scan ⟨3, [⟨1⟩]⟩ validNone [97]).result = false ∧
    (scan ⟨3, [⟨1⟩]⟩ validNone [97]).scanner = ⟨3, [⟨1⟩]⟩ :=
  ⟨by decide, scan_false_preserves_state ⟨3, [⟨1⟩]⟩ validNone [97] (by decide)⟩

/-- One scan call leaves the delimiter stack unchanged, pops its last
element (STRING_END), or pushes one freshly built delimiter with flags
1, 2 or 4 (STRING_START). -/
theorem scan_stack_effect (s : Scanner) (valid : TokenType → Bool) (input : List Nat) :
    (scan s valid input).scanner.delimiter_stack = s.delimiter_stack ∨
    (scan s valid input).scanner.delimiter_stack = s.delimiter_stack.dropLast ∨
    (∃ d, (d.flags = 1 ∨ d.flags = 2 ∨ d.flags = 4) ∧
      (scan s valid input).scanner.delimiter_stack = s.delimiter_stack ++ [d]) := by
  rw [scan]
  by_cases hg : valid .STRING_CONTENT = true ∧ s.delimiter_stack ≠ [] ∧
      ((valid .STRING_CONTENT || valid .REGEX_CONTENT) && valid .INDENT) = false
  · rw [if_pos hg]
    rcases hr : stringLoop (s.delimiter_stack.getLastD ⟨0⟩).end_character input false 0 with
      ⟨res, sym, m, p⟩ | ⟨remaining, pos⟩
    · dsimp only
      by_cases hp : p = true
      · simp [hp]
      · simp [hp]
    · dsimp only
      rcases (scanAfterString_state s valid remaining pos).2.2 with h | ⟨d, hd, h⟩
      · exact Or.inl h
      · exact Or.inr (Or.inr ⟨d, hd, h⟩)
  · rw [if_neg hg]
    rcases (scanAfterString_state s valid input 0).2.2 with h | ⟨d, hd, h⟩
    · exact Or.inl h
    · exact Or.inr (Or.inr ⟨d, hd, h⟩)

/-- Every delimiter on the stack of a reachable state has a flags byte
below 256 (in fact 1, 2 or 4). -/
theorem reachable_flags {s : Scanner} (h : Reachable s) :
    ∀ d ∈ s.delimiter_stack, d.flags < 256 := by
  induction h with
  | init => simp
  | step s valid input _ ih =>
    rcases scan_stack_effect s valid input with h1 | h1 | ⟨d, hd, h1⟩ <;> rw [h1]
    · exact ih
    · intro x hx
      exact ih x (List.dropLast_subset _ hx)
    · intro x hx
      rcases List.mem_append.mp hx with hx | hx
      · exact ih x hx
      · rw [List.mem_singleton.mp hx]
        rcases hd with h | h | h <;> omega

/-- Round trip of the byte encoding for any scanner state whose stack
fits into the one-byte count and whose baseline fits into one byte. -/
theorem serialize_deserialize_core (s t : Scanner)
    (hlen : s.delimiter_stack.length ≤ 255)
    (hprev : s.previous_indent_length < 256)
    (hfl : ∀ d ∈ s.delimiter_stack, d.flags < 256) :
    deserialize t (serialize s) (serialize s).length = s := by
  obtain ⟨prev, stack⟩ := s
  simp only at hlen hprev hfl
  have hser : serialize ⟨prev, stack⟩ =
      stack.length :: (stack.map (fun d => d.flags % 256) ++ [prev % 256]) := by
    simp only [serialize, Nat.min_eq_left hlen, List.take_length]
  have hlen2 : (serialize ⟨prev, stack⟩).length = stack.length + 2 := by
    rw [hser]
    simp
  rw [deserialize, if_neg (by rw [hlen2]; omega), hser]
  have hhead : (stack.length ::
      (stack.map (fun d => d.flags % 256) ++ [prev % 256])).headD 0 % 256 = stack.length := by
    simp only [List.headD]
    exact Nat.mod_eq_of_lt (by omega)
  simp only [hhead]
  have hmidlen : (stack.map (fun d => d.flags % 256)).length = stack.length := by simp
  have hbase : (stack.length ::
      (stack.map (fun d => d.flags % 256) ++ [prev % 256])).getD (1 + stack.length) 0 = prev % 256 := by
    rw [show 1 + stack.length = stack.length + 1 from by omega, List.getD_cons_succ,
      List.getD_append_right _ _ _ _ (by omega), hmidlen]
    simp
  have hstack : (List.range stack.length).map
      (fun j => (⟨((stack.length ::
        (stack.map (fun d => d.flags % 256) ++ [prev % 256])).getD (1 + j) 0) % 256⟩ : Delimiter)) =
      stack := by
    apply List.ext_getElem
    · simp
    · intro j hj hj2
      have hjlt : j < stack.length := by simpa using hj2
      have hbyte : (stack.length ::
          (stack.map (fun d => d.flags % 256) ++ [prev % 256])).getD (1 + j) 0 =
          stack[j].flags % 256 := by
        rw [show 1 + j = j + 1 from by omega, List.getD_cons_succ,
          List.getD_append _ _ _ _ (by omega), List.getD_eq_getElem _ _ (by omega)]
        simp
      simp only [List.getElem_map, List.getElem_range, hbyte]
      have hflj : stack[j].flags < 256 := hfl stack[j] (List.getElem_mem hjlt)
      congr 1
      have hget : (stack.get ⟨j, hj2⟩).flags = stack[j].flags := rfl
      rw [hget]
      omega
  rw [Scanner.mk.injEq]
  constructor
  · rw [hbase]
    omega
  · exact hstack

/-- C1 (amended): for every state reachable by scan calls from the zero
state whose delimiter stack has at most 255 entries and whose baseline
is at most 255 (so both fit the one-byte fields of the encoding),
deserializing the byte string produced by serialize - into any scanner -
restores exactly the original state: same stack, same baseline. -/
theorem serialize_roundtrip (s t : Scanner) (hr : Reachable s)
    (hlen : s.delimiter_stack.length ≤ 255)
    (hprev : s.previous_indent_length < 256) :
    deserialize t (serialize s) (serialize s).length = s :=
  serialize_deserialize_core s t hlen hprev (reachable_flags hr)

/-- Witness for C1: the zero state round-trips through any scanner. -/
theorem serialize_roundtrip_w :
    deserialize ⟨7, [⟨1⟩]⟩ (serialize ⟨0, []⟩) (serialize ⟨0, []⟩).length = ⟨0, []⟩ :=
  serialize_roundtrip ⟨0, []⟩ ⟨7, [⟨1⟩]⟩ Reachable.init (by decide) (by decide)

/-- Counterexample for C1 as frozen: one scan call over a newline and 32
tabs commits INDENT with baseline 256; serialize stores only the low
byte (0), so deserializing the serialized state yields baseline 0, not
256. -/
theorem serialize_roundtrip_counterexample :
    Reachable (scan ⟨0, []⟩ (validOnly .INDENT)
      (10 :: (List.replicate 32 9 ++ [120]))).scanner ∧
    (scan ⟨0, []⟩ (validOnly .INDENT)
      (10 :: (List.replicate 32 9 ++ [120]))).scanner.previous_indent_length = 256 ∧
    deserialize
        (scan ⟨0, []⟩ (validOnly .INDENT) (10 :: (List.replicate 32 9 ++ [120]))).scanner
        (serialize (scan ⟨0, []⟩ (validOnly .INDENT)
          (10 :: (List.replicate 32 9 ++ [120]))).scanner)
        (serialize (scan ⟨0, []⟩ (validOnly .INDENT)
          (10 :: (List.replicate 32 9 ++ [120]))).scanner).length ≠
      (scan ⟨0, []⟩ (validOnly .INDENT) (10 :: (List.replicate 32 9 ++ [120]))).scanner := by
  refine ⟨Reachable.step ⟨0, []⟩ (validOnly .INDENT) (10 :: (List.replicate 32 9 ++ [120]))
    Reachable.init, by decide, by decide⟩

/-- C2: deserialize with a zero length clears the delimiter stack but
leaves the baseline untouched for every starting state; in particular a
starting baseline of 5 survives, contradicting the specified reset to
the zero state. -/
theorem deserialize_empty_keeps_baseline :
    (∀ (s : Scanner) (buffer : List Nat),
      deserialize s buffer 0 = ⟨s.previous_indent_length, []⟩) ∧
    deserialize ⟨5, [⟨2⟩]⟩ [] 0 = ⟨5, []⟩ ∧ (5 : Nat) ≠ 0 :=
  ⟨fun s buffer => by rw [deserialize, if_pos rfl], by decide, by decide⟩

/-- Counterexample for C3 as frozen: with the one-byte buffer [0] and
supplied length 1, deserialize reads index 1 (the baseline byte right
after the encoded count 0), which is not strictly below the supplied
length 1. -/
theorem deserialize_reads_counterexample :
    1 ∈ deserializeReadIndices [0] 1 ∧ ¬(1 < 1) := by
  constructor <;> decide

/-- C3 (amended): deserialize reads exactly the indices determined by
the encoded count byte - index 0, the count delimiter bytes after it,
and one baseline byte - all strictly below count + 2, regardless of the
supplied length; and its result depends only on the bytes at those
indices. -/
theorem deserialize_reads_bounded :
    (∀ (buffer : List Nat) (length i : Nat),
      i ∈ deserializeReadIndices buffer length → i < (buffer.headD 0) % 256 + 2) ∧
    (∀ (s : Scanner) (b1 b2 : List Nat) (length : Nat),
      b1.headD 0 = b2.headD 0 →
      (∀ i ∈ deserializeReadIndices b1 length, b1.getD i 0 = b2.getD i 0) →
      deserialize s b1 length = deserialize s b2 length) := by
  constructor
  · intro buffer length i hi
    rw [deserializeReadIndices] at hi
    by_cases hl : length = 0
    · rw [if_pos hl] at hi
      simp at hi
    · rw [if_neg hl] at hi
      rcases List.mem_cons.mp hi with rfl | hi2
      · omega
      · rcases List.mem_append.mp hi2 with hi3 | hi3
        · obtain ⟨j, hj, rfl⟩ := List.mem_map.mp hi3
          rw [List.mem_range] at hj
          omega
        · rw [List.mem_singleton.mp hi3]
          omega
  · intro s b1 b2 length hhead hagree
    by_cases hl : length = 0
    · subst hl
      rw [deserialize, if_pos rfl, deserialize, if_pos rfl]
    · rw [deserialize, if_neg hl, deserialize, if_neg hl, ← hhead]
      rw [Scanner.mk.injEq]
      constructor
      · rw [hagree (1 + b1.headD 0 % 256) (by
          rw [deserializeReadIndices, if_neg hl]
          exact List.mem_cons_of_mem _
            (List.mem_append_right _ (List.mem_singleton_self _)))]
      · apply List.map_congr_left
        intro j hj
        rw [List.mem_range] at hj
        rw [hagree (1 + j) (by
          rw [deserializeReadIndices, if_neg hl]
          exact List.mem_cons_of_mem _ (List.mem_append_left _
            (List.mem_map_of_mem _ (List.mem_range.mpr hj))))]

/-- Witness for C3: index 0 of the read set of buffer [0] with length 1
is below the count bound 0 + 2. -/
theorem deserialize_reads_bounded_w :
    0 ∈ deserializeReadIndices [0] 1 ∧ 0 < ([0].headD 0) % 256 + 2 :=
  ⟨by decide, deserialize_reads_bounded.1 [0] 1 0 (by decide)⟩
